import Mathlib

/-!
# Verification of `socket.io-monitor`'s server (`src/server.js`)

A shallow embedding of the monitoring server: the `monkeyPatch` interception
helper, the per-connection authentication handshake of `connHandler`, the
session roster with its event fan-out (`addProto` / `removeProto` /
`dispatch`), and the `getState` snapshot aggregator; together with theorems
settling the specification's claims about them.

Modelling conventions:
* JavaScript's single-threaded world is a value threaded explicitly; an
  operation takes its argument list and the world and returns `Except`
  (a thrown exception) or a result together with the updated world.
* Asynchronous callbacks (socket messages, the auth timer firing, socket
  close) are modelled as a list of discrete events folded over the
  per-connection state, in arrival order.
* JavaScript objects used as dictionaries are association lists in key
  insertion order; `Object.keys` is the list of first components.
-/

namespace SIOMonitor

/-! ## The interception layer: `monkeyPatch` (server.js:47-53) -/

/-- The world as a JS function sees it, split into the part owned by the
instrumented hub (socket.io's own state) and the monitor-side part (the
local emitter, wire buffers, ...). -/
structure Sys (H M : Type) where
  hub : H
  mon : M
deriving Repr, DecidableEq

/-- A JS operation: argument list and current world to either a thrown
exception or a returned value with the updated world. -/
abbrev JsOp (V H M Err : Type) := List V → Sys H M → Except Err (V × Sys H M)

/-- `monkeyPatch` (server.js:47-53): the wrapper installed over
`object[method]` first applies the capture `fn` to the original arguments
(its result is discarded), then applies the original method to the same
arguments and returns its result.  The source has no exception handling:
an exception from `fn` aborts the wrapper. -/
def monkeyPatch (fn orig : JsOp V H M Err) : JsOp V H M Err := fun args s =>
  match fn args s with
  | .error e => .error e
  | .ok (_, s') => orig args s'

/-- An operation of the hub proper: a pure transformer of the hub state
returning a value (the hub is a black box that does not throw in normal
operation). -/
abbrev HubOp (V H : Type) := List V → H → V × H

/-- A capture function as `initEmitter` installs them: it reads the
arguments (and the world) and updates only the monitor-side state — the
captures in the source only call `e.emit(...)` — and does not throw. -/
abbrev Capture (V H M : Type) := List V → H → M → M

/-- Lift a hub operation to a `JsOp` that leaves the monitor state alone.
`Empty` as the exception type records that it cannot throw. -/
def liftHub (f : HubOp V H) : JsOp V H M Empty := fun args s =>
  .ok ((f args s.hub).1, ⟨(f args s.hub).2, s.mon⟩)

/-- Lift a capture function to a `JsOp`; `d` is the (discarded) return
value (`undefined`). -/
def liftCap (d : V) (c : Capture V H M) : JsOp V H M Empty := fun args s =>
  .ok (d, ⟨s.hub, c args s.hub s.mon⟩)

/-- One intercepted hub call: the capture installed on the method, the
underlying hub operation, and the arguments of this call. -/
structure Step (V H M : Type) where
  cap : Capture V H M
  op : HubOp V H
  args : List V

/-- Run a sequence of intercepted calls with monitoring attached: each call
goes through `monkeyPatch`.  Returns the list of values the hub calls
returned and the final world. -/
def runMonitored (d : V) : List (Step V H M) → Sys H M → List V × Sys H M
  | [], s => ([], s)
  | st :: rest, s =>
    match monkeyPatch (liftCap d st.cap) (liftHub st.op) st.args s with
    | .error e => e.elim
    | .ok (r, s') =>
      let (rs, s'') := runMonitored d rest s'
      (r :: rs, s'')

/-- Run the same sequence of hub calls with no monitoring attached. -/
def runPlain : List (Step V H M) → H → List V × H
  | [], h => ([], h)
  | st :: rest, h =>
    let (r, h') := st.op st.args h
    let (rs, h'') := runPlain rest h'
    (r :: rs, h'')

/-- A capture function that always throws (for the counterexamples). -/
def throwingCapture : JsOp Nat Nat Nat String := fun _ _ => .error "boom"

/-- A capture function that succeeds and leaves the world alone. -/
def okCapture : JsOp Nat Nat Nat String := fun _ s => .ok (0, s)

/-- A hub operation that bumps the hub state and returns 7. -/
def bumpOp : JsOp Nat Nat Nat String := fun _ s => .ok (7, ⟨s.hub + 1, s.mon⟩)

/-! ## The authentication handshake: `connHandler` (server.js:164-204) -/

/-- A message the server sends to a monitor client during the handshake. -/
inductive Msg
  | reqAuth (required : Bool)
  | authOk
  | authFail (error : String)
deriving Repr, DecidableEq

/-- Per-connection state of the handshake.  `pwListener` records that the
`once('password')` listener is still bound; `sessionCreated` records that
`init()` ran (so `addProto` was called at least once); `inRoster` that the
proto is currently in `protos`; `ended` that `socket.end()` was called. -/
structure Conn where
  timerActive : Bool
  pwListener : Bool
  authorized : Bool
  sessionCreated : Bool
  inRoster : Bool
  ended : Bool
  sent : List Msg
deriving Repr, DecidableEq

/-- The synchronous body of `connHandler`'s connection callback: with no
password configured it sends `reqAuth(false)` and starts no timer
(server.js:182-185); with a password it sends `reqAuth(true)` and arms the
auth timeout (server.js:186-192). -/
def connInit (password : Option String) : Conn :=
  match password with
  | none =>
    { timerActive := false, pwListener := true, authorized := false,
      sessionCreated := false, inRoster := false, ended := false,
      sent := [.reqAuth false] }
  | some _ =>
    { timerActive := true, pwListener := true, authorized := false,
      sessionCreated := false, inRoster := false, ended := false,
      sent := [.reqAuth true] }

/-- The asynchronous events one connection can observe, in arrival order:
a decoded `password` message, the auth timer firing, the socket's `close`
event. -/
inductive ConnEvent
  | password (pwd : String)
  | timeout
  | close
deriving Repr, DecidableEq

/-- One event against the handlers `connHandler` registered.
* `password` (server.js:185, 193-202): handled only while the `once`
  listener is bound; it unbinds itself, clears the timer, and either runs
  `init()` (no password configured, or exact match — sending
  `auth({authorized:true})` in the latter case) or sends
  `auth({authorized:false, error:'INVALID_PASSWORD'})` and ends the socket.
* `timeout` (server.js:189-192): if the timer is still armed, sends
  `auth({authorized:false, error:'TIMEOUT'})` and ends the socket.  It does
  not unbind the password listener.
* `close` (server.js:170): `removeProto` — drops the proto from `protos`
  and removes all its listeners. -/
def connStep (password : Option String) (c : Conn) : ConnEvent → Conn
  | .password pwd =>
    if c.pwListener then
      match password with
      | none =>
        { c with pwListener := false, authorized := true,
                 sessionCreated := true, inRoster := true }
      | some secret =>
        if pwd = secret then
          { c with pwListener := false, timerActive := false,
                   sent := c.sent ++ [.authOk], authorized := true,
                   sessionCreated := true, inRoster := true }
        else
          { c with pwListener := false, timerActive := false,
                   sent := c.sent ++ [.authFail "INVALID_PASSWORD"],
                   ended := true }
    else c
  | .timeout =>
    if c.timerActive then
      { c with timerActive := false,
               sent := c.sent ++ [.authFail "TIMEOUT"], ended := true }
    else c
  | .close => { c with inRoster := false, pwListener := false }

/-- A connection's whole handshake: the synchronous setup followed by the
observed events in arrival order. -/
def connRun (password : Option String) (evs : List ConnEvent) : Conn :=
  evs.foldl (connStep password) (connInit password)

/-! ## The session roster and fan-out dispatcher (server.js:128-162) -/

/-- The wire-send behavior of the protocol layer: `proto.emit(name, data)`
either returns or throws. -/
abbrev Send (S E : Type) := S → String → E → Except String Unit

/-- `dispatch` (server.js:148-150): `protos.forEach(proto =>
proto.emit(name, data))`.  Delivery entries are produced in roster order;
a send that throws aborts the loop and its error escapes to the emitter's
caller.  Returns the deliveries made and the escaping error, if any. -/
def deliver (send : Send S E) (name : String) (data : E) :
    List S → List (S × String × E) × Option String
  | [] => ([], none)
  | p :: ps =>
    match send p name data with
    | .error err => ([], some err)
    | .ok _ =>
      let (t, r) := deliver send name data ps
      ((p, name, data) :: t, r)

/-- The dispatcher's state: the roster `protos`, the listeners currently
bound on each proto (pairs of proto and event name), and the trace of wire
sends made so far. -/
structure DState (S E : Type) where
  protos : List S
  listeners : List (S × String)
  trace : List (S × String × E)
deriving Repr, DecidableEq

/-- What can happen to the dispatcher: `addProto` on admission
(server.js:133-134, `protos.concat([proto])`), `removeProto` on socket
close (server.js:144-147, filter plus `removeAllListeners`), or a
canonical event published on the emitter and fanned out (server.js:148-162). -/
inductive DAct (S E : Type)
  | addProto (s : S)
  | removeProto (s : S)
  | publish (name : String) (data : E)

/-- One dispatcher step. -/
def dstep [DecidableEq S] (send : Send S E) (st : DState S E) :
    DAct S E → DState S E
  | .addProto s => { st with protos := st.protos ++ [s] }
  | .removeProto s =>
    { st with protos := st.protos.filter (fun p => p ≠ s),
              listeners := st.listeners.filter (fun l => l.1 ≠ s) }
  | .publish name data =>
    { st with trace := st.trace ++ (deliver send name data st.protos).1 }

/-- A run of the dispatcher over a list of happenings, in order. -/
def drun [DecidableEq S] (send : Send S E) (st : DState S E)
    (acts : List (DAct S E)) : DState S E :=
  acts.foldl (dstep send) st

/-- A wire send that always succeeds. -/
def okSend : Send Nat Nat := fun _ _ _ => .ok ()

/-- A wire send that throws for session 1 and succeeds for the others. -/
def failFirstSend : Send Nat Nat := fun p _ _ =>
  if p = 1 then .error "EPIPE" else .ok ()

/-! ## The state snapshot: `getState` (server.js:209-240) -/

/-- One room as the adapter stores it: a `length` field and a `sockets`
object mapping socket id to a boolean membership flag.  JS objects are
modelled as association lists in key insertion order. -/
structure RoomInfo where
  length : Nat
  sockets : List (String × Bool)
deriving Repr, DecidableEq

/-- `io.sockets.adapter.rooms`: room name to room info, in key order. -/
abbrev Adapter := List (String × RoomInfo)

/-- JS truthiness of `info.sockets[id]`: the key is present with value
`true` (an absent key reads as `undefined`, which is falsy). -/
def flagOf (l : List (String × Bool)) (id : String) : Bool :=
  (l.lookup id).getD false

/-- `Object.keys(info.sockets).filter(id => info.sockets[id])`
(server.js:224). -/
def activeIds (info : RoomInfo) : List String :=
  (info.sockets.map Prod.fst).filter (fun id => flagOf info.sockets id)

/-- The callback of the `rooms` reduce (server.js:217-227): skip a room
whose stored `length` is 1 and whose `sockets` object holds a truthy flag
under the room's own name; push every other room with its truthy ids. -/
def roomStep (rooms : List (String × List String)) (e : String × RoomInfo) :
    List (String × List String) :=
  if e.2.length = 1 ∧ flagOf e.2.sockets e.1 = true then rooms
  else rooms ++ [(e.1, activeIds e.2)]

/-- The `rooms` field of the snapshot. -/
def stateRooms (adapter : Adapter) : List (String × List String) :=
  adapter.foldl roomStep []

/-- `dict[id] = true` on a JS object used as a set: a fresh key is
appended, an existing key keeps its (first-insertion) position. -/
def pushNew (d : List String) (id : String) : List String :=
  if id ∈ d then d else d ++ [id]

/-- The inner forEach of the `sockets` reduce (server.js:231-235): walk a
room's keys and record each id whose flag is truthy. -/
def addRoomIds (dict : List String) (info : RoomInfo) : List String :=
  (info.sockets.map Prod.fst).foldl
    (fun d id => if flagOf info.sockets id then pushNew d id else d) dict

/-- The `sockets` field of the snapshot: `Object.keys` of the accumulated
dictionary (server.js:230-237). -/
def stateSockets (adapter : Adapter) : List String :=
  adapter.foldl (fun dict e => addRoomIds dict e.2) []

/-- `getState` (server.js:209-240), modulo the `Promise` wrapper. -/
def getState (adapter : Adapter) : List (String × List String) × List String :=
  (stateRooms adapter, stateSockets adapter)

/-- The invariant the hub's adapter maintains for each room (socket.io's
`Room.prototype.add`/`del`): every stored flag is `true`, `length` counts
the stored sockets, and keys are unique. -/
abbrev RoomWF (info : RoomInfo) : Prop :=
  info.length = info.sockets.length ∧ (∀ e ∈ info.sockets, e.2 = true) ∧
    (info.sockets.map Prod.fst).Nodup

/-- A concrete adapter: `alice`'s personal room plus a real room `room1`. -/
def wfAdapter : Adapter :=
  [("alice", ⟨1, [("alice", true)]⟩),
   ("room1", ⟨2, [("alice", true), ("bob", true)]⟩)]

/-! ## Theorems -/

theorem runMonitored_eq_runPlain (d : V) (prog : List (Step V H M)) :
    ∀ (h0 : H) (m0 : M),
      (runMonitored d prog (Sys.mk h0 m0)).1 = (runPlain prog h0).1 ∧
      (runMonitored d prog (Sys.mk h0 m0)).2.hub = (runPlain prog h0).2 := by
  induction prog with
  | nil => intro h0 m0; exact ⟨rfl, rfl⟩
  | cons st rest ih =>
    intro h0 m0
    have hstep :
        monkeyPatch (liftCap d st.cap) (liftHub st.op) st.args (Sys.mk h0 m0) =
          .ok ((st.op st.args h0).1,
                Sys.mk (st.op st.args h0).2 (st.cap st.args h0 m0)) := rfl
    simp only [runMonitored, runPlain, hstep]
    exact ⟨by simp [(ih (st.op st.args h0).2 (st.cap st.args h0 m0)).1],
           by simp [(ih (st.op st.args h0).2 (st.cap st.args h0 m0)).2]⟩

/-- C1 counterexample: with a capture function that throws, the wrapper
propagates the exception to the hub caller, and the original operation's
effect (bumping the hub state and returning 7) never happens — whereas the
unwrapped operation returns normally. -/
theorem capture_throw_propagates_cex :
    monkeyPatch throwingCapture bumpOp [] (Sys.mk 0 0) = .error "boom" ∧
    bumpOp [] (Sys.mk 0 0) = .ok (7, Sys.mk 1 0) :=
  ⟨rfl, rfl⟩

/-- C1 (amended): a wrapped hub operation propagates an exception thrown by
the capture function to the hub caller, and the original operation does not
execute in that case; only when the capture function returns normally does
the original operation run, with the original arguments, its result
returned unchanged. -/
theorem monkeyPatch_error_behavior (fn orig : JsOp V H M Err) (args : List V)
    (s : Sys H M) :
    (∀ e, fn args s = .error e → monkeyPatch fn orig args s = .error e) ∧
    (∀ u s', fn args s = .ok (u, s') → monkeyPatch fn orig args s = orig args s') := by
  constructor
  · intro e he
    simp [monkeyPatch, he]
  · intro u s' hok
    simp [monkeyPatch, hok]

/-- C2: when the capture function returns normally, the wrapper invokes the
original operation with the same arguments and returns its result
unchanged; and for every sequence of intercepted hub calls the hub's
return values and final hub state are identical whether or not monitoring
is attached. -/
theorem monkeyPatch_transparent (fn orig : JsOp V H M Err) (args : List V)
    (s : Sys H M) (u : V) (s' : Sys H M) (hcap : fn args s = .ok (u, s')) :
    monkeyPatch fn orig args s = orig args s' ∧
    ∀ (d : V) (prog : List (Step V H M)) (h0 : H) (m0 : M),
      (runMonitored d prog (Sys.mk h0 m0)).1 = (runPlain prog h0).1 ∧
      (runMonitored d prog (Sys.mk h0 m0)).2.hub = (runPlain prog h0).2 := by
  refine ⟨by simp [monkeyPatch, hcap], ?_⟩
  intro d prog h0 m0
  exact runMonitored_eq_runPlain d prog h0 m0

/-- C2 witness: the transparency theorem applied at a concrete capture,
operation and world. -/
theorem monkeyPatch_transparent_wit :
    monkeyPatch okCapture bumpOp [] (Sys.mk 0 0) = bumpOp [] (Sys.mk 0 0) ∧
    ∀ (d : Nat) (prog : List (Step Nat Nat Nat)) (h0 : Nat) (m0 : Nat),
      (runMonitored d prog (Sys.mk h0 m0)).1 = (runPlain prog h0).1 ∧
      (runMonitored d prog (Sys.mk h0 m0)).2.hub = (runPlain prog h0).2 :=
  monkeyPatch_transparent okCapture bumpOp [] (Sys.mk 0 0) 0 (Sys.mk 0 0) rfl

/-- C3: with a password configured, a first password message that matches
exactly (while the timer has not fired) yields `auth({authorized:true})`
and admission to the roster; a non-matching first password yields
`auth({authorized:false, error:'INVALID_PASSWORD'})` and the socket is
ended without a session; no password before the timer fires yields
`auth({authorized:false, error:'TIMEOUT'})` and the socket is ended
without a session. -/
theorem auth_password_configured (secret pwd : String) (hne : pwd ≠ secret) :
    (connRun (some secret) [.password secret]).sent = [.reqAuth true, .authOk] ∧
    (connRun (some secret) [.password secret]).inRoster = true ∧
    (connRun (some secret) [.password secret]).sessionCreated = true ∧
    (connRun (some secret) [.password pwd]).sent
      = [.reqAuth true, .authFail "INVALID_PASSWORD"] ∧
    (connRun (some secret) [.password pwd]).ended = true ∧
    (connRun (some secret) [.password pwd]).sessionCreated = false ∧
    (connRun (some secret) [.timeout]).sent
      = [.reqAuth true, .authFail "TIMEOUT"] ∧
    (connRun (some secret) [.timeout]).ended = true ∧
    (connRun (some secret) [.timeout]).sessionCreated = false := by
  simp [connRun, connStep, connInit, hne]

/-- C3 witness: the handshake theorem at the concrete secret `"secret"` and
wrong password `"wrong"`. -/
theorem auth_password_configured_wit :
    (connRun (some "secret") [.password "secret"]).sent
      = [.reqAuth true, .authOk] ∧
    (connRun (some "secret") [.password "secret"]).inRoster = true ∧
    (connRun (some "secret") [.password "secret"]).sessionCreated = true ∧
    (connRun (some "secret") [.password "wrong"]).sent
      = [.reqAuth true, .authFail "INVALID_PASSWORD"] ∧
    (connRun (some "secret") [.password "wrong"]).ended = true ∧
    (connRun (some "secret") [.password "wrong"]).sessionCreated = false ∧
    (connRun (some "secret") [.timeout]).sent
      = [.reqAuth true, .authFail "TIMEOUT"] ∧
    (connRun (some "secret") [.timeout]).ended = true ∧
    (connRun (some "secret") [.timeout]).sessionCreated = false :=
  auth_password_configured "secret" "wrong" (by decide)

/-- C4: the code violates the claim.  After the auth timeout has fired
(sending the TIMEOUT rejection and ending the socket), the
`once('password')` listener is still bound, so a matching password that
arrives before the socket's `close` event still runs `init()`: a session
is created and admitted, and `auth({authorized:true})` is sent after the
TIMEOUT rejection. -/
theorem auth_timeout_then_password :
    (connRun (some "secret") [.timeout, .password "secret"]).sessionCreated = true ∧
    (connRun (some "secret") [.timeout, .password "secret"]).inRoster = true ∧
    (connRun (some "secret") [.timeout, .password "secret"]).sent
      = [.reqAuth true, .authFail "TIMEOUT", .authOk] ∧
    (connRun (some "secret") [.timeout, .close, .password "secret"]).sessionCreated
      = false := by
  decide

/-- C10: with no password configured, the first password message admits the
connection whatever its payload — any secret behaves exactly as the empty
one — no auth timer is armed, and nothing but `reqAuth(false)` is sent
before admission (no `auth` confirmation). -/
theorem auth_disabled_admits_any (pwd : String) :
    (connInit none).timerActive = false ∧
    (connRun none [.password pwd]).inRoster = true ∧
    (connRun none [.password pwd]).sessionCreated = true ∧
    (connRun none [.password pwd]).sent = [.reqAuth false] ∧
    connRun none [.password pwd] = connRun none [.password ""] := by
  simp [connRun, connStep, connInit]

theorem deliver_all_ok (send : Send S E) (name : String) (data : E)
    (h : ∀ p, send p name data = .ok ()) (l : List S) :
    deliver send name data l = (l.map (fun p => (p, name, data)), none) := by
  induction l with
  | nil => rfl
  | cons p ps ih => simp [deliver, h p, ih]

theorem deliver_mem (send : Send S E) (name : String) (data : E)
    (l : List S) (entry : S × String × E)
    (hm : entry ∈ (deliver send name data l).1) : entry.1 ∈ l := by
  induction l with
  | nil => simp [deliver] at hm
  | cons p ps ih =>
    rw [deliver] at hm
    cases hs : send p name data with
    | error err => rw [hs] at hm; simp at hm
    | ok u =>
      rw [hs] at hm
      simp only [List.mem_cons] at hm ⊢
      rcases hm with h | h
      · exact Or.inl (congrArg Prod.fst h)
      · exact Or.inr (ih h)

theorem drun_append [DecidableEq S] (send : Send S E) (st : DState S E)
    (a b : List (DAct S E)) :
    drun send st (a ++ b) = drun send (drun send st a) b :=
  List.foldl_append _ _ _ _

theorem dstep_trace_extends [DecidableEq S] (send : Send S E)
    (st : DState S E) (act : DAct S E) :
    ∃ t, (dstep send st act).trace = st.trace ++ t := by
  cases act with
  | addProto s => exact ⟨[], by simp [dstep]⟩
  | removeProto s => exact ⟨[], by simp [dstep]⟩
  | publish name data => exact ⟨_, rfl⟩

theorem drun_trace_extends [DecidableEq S] (send : Send S E)
    (acts : List (DAct S E)) : ∀ st : DState S E,
    ∃ t, (drun send st acts).trace = st.trace ++ t := by
  induction acts with
  | nil => intro st; exact ⟨[], by simp [drun]⟩
  | cons act rest ih =>
    intro st
    obtain ⟨t₁, h₁⟩ := dstep_trace_extends send st act
    obtain ⟨t₂, h₂⟩ := ih (dstep send st act)
    exact ⟨t₁ ++ t₂, by
      show (drun send (dstep send st act) rest).trace = _
      rw [h₂, h₁, List.append_assoc]⟩

theorem filter_idem (p : α → Bool) (l : List α) :
    (l.filter p).filter p = l.filter p := by
  apply List.filter_eq_self.mpr
  intro a ha
  exact (List.mem_filter.mp ha).2

/-- C6: when wire sends succeed, publishing a canonical event appends to
the wire trace exactly one send per currently-admitted session, in roster
(admission) order, with the event's kind as message name and its payload
as body; and everything dispatched later only extends that trace, so every
admitted session receives the event before any later event's sends. -/
theorem dispatch_fanout_order [DecidableEq S] (send : Send S E)
    (hok : ∀ p name data, send p name data = .ok ())
    (st : DState S E) (acts : List (DAct S E)) (name : String) (data : E) :
    (drun send st (acts ++ [.publish name data])).trace =
      (drun send st acts).trace ++
        (drun send st acts).protos.map (fun p => (p, name, data)) ∧
    ∀ more : List (DAct S E), ∃ t,
      (drun send st (acts ++ .publish name data :: more)).trace =
        ((drun send st acts).trace ++
          (drun send st acts).protos.map (fun p => (p, name, data))) ++ t := by
  have hpub : (drun send st (acts ++ [.publish name data])).trace =
      (drun send st acts).trace ++
        (drun send st acts).protos.map (fun p => (p, name, data)) := by
    rw [drun_append]
    show (dstep send (drun send st acts) (.publish name data)).trace = _
    rw [dstep, deliver_all_ok send name data (fun p => hok p name data)]
  refine ⟨hpub, ?_⟩
  intro more
  have hsplit : acts ++ .publish name data :: more
      = (acts ++ [.publish name data]) ++ more := by simp
  rw [hsplit, drun_append]
  obtain ⟨t, ht⟩ := drun_trace_extends send more (drun send st (acts ++ [.publish name data]))
  exact ⟨t, by rw [ht, hpub]⟩

/-- C6 witness: two admitted sessions, one `broadcast` event, delivered to
both in admission order. -/
theorem dispatch_fanout_order_wit :
    (drun okSend (DState.mk [1, 2] [] []) ([] ++ [.publish "broadcast" 5])).trace =
      (drun okSend (DState.mk [1, 2] [] []) []).trace ++
        (drun okSend (DState.mk [1, 2] [] []) []).protos.map
          (fun p => (p, "broadcast", 5)) :=
  (dispatch_fanout_order okSend (fun _ _ _ => rfl)
    (DState.mk [1, 2] [] []) [] "broadcast" 5).1

/-- C7 counterexample: with sessions 1 and 2 admitted and session 1's wire
send throwing, the dispatch loop delivers to nobody — session 2 does not
receive the event — and the error escapes to the publisher, while the same
dispatch with sound sends delivers to both. -/
theorem send_failure_aborts_cex :
    deliver failFirstSend "broadcast" 5 [1, 2] = ([], some "EPIPE") ∧
    deliver okSend "broadcast" 5 [1, 2]
      = ([(1, "broadcast", 5), (2, "broadcast", 5)], none) :=
  ⟨rfl, rfl⟩

/-- C7 (amended): a thrown error in one admitted session's wire send aborts
the dispatch loop: the sessions before it in admission order have already
been sent the event, the failing session and every session after it
receive nothing, and the error escapes to the publisher (back into the hub
operation flow) instead of being swallowed. -/
theorem send_failure_aborts (send : Send S E) (name : String) (data : E)
    (ps₁ : List S) (p : S) (ps₂ : List S) (e : String)
    (h₁ : ∀ q ∈ ps₁, send q name data = .ok ())
    (h₂ : send p name data = .error e) :
    deliver send name data (ps₁ ++ p :: ps₂)
      = (ps₁.map (fun q => (q, name, data)), some e) := by
  induction ps₁ with
  | nil => simp [deliver, h₂]
  | cons q qs ih =>
    have hq : send q name data = .ok () := h₁ q (by simp)
    have ih' := ih (fun r hr => h₁ r (by simp [hr]))
    simp only [List.cons_append, deliver, hq, List.append_eq, ih', List.map_cons]

/-- C7 amended-claim witness: sessions 2, 1, 3 admitted in that order,
session 1's send throws: session 2 was served, sessions 1 and 3 were not,
the error escaped. -/
theorem send_failure_aborts_wit :
    deliver failFirstSend "broadcast" 5 ([2] ++ 1 :: [3])
      = ([(2, "broadcast", 5)], some "EPIPE") :=
  send_failure_aborts failFirstSend "broadcast" 5 [2] 1 [3] "EPIPE"
    (by intro q hq; simp only [List.mem_singleton] at hq; subst hq; rfl) rfl

/-- C9: `removeProto` removes the session from the roster (so a subsequent
publish sends it nothing, while the other sessions are exactly the roster
minus it, in unchanged order), detaches all of that session's listeners,
is idempotent, and removing a session not in the roster leaves the roster
unchanged. -/
theorem retire_proto_spec [DecidableEq S] (send : Send S E)
    (st : DState S E) (s : S) :
    s ∉ (dstep send st (.removeProto s)).protos ∧
    (dstep send st (.removeProto s)).protos
      = st.protos.filter (fun p => p ≠ s) ∧
    (∀ n, (s, n) ∉ (dstep send st (.removeProto s)).listeners) ∧
    dstep send (dstep send st (.removeProto s)) (.removeProto s)
      = dstep send st (.removeProto s) ∧
    (s ∉ st.protos → (dstep send st (.removeProto s)).protos = st.protos) ∧
    (∀ (name : String) (data : E) entry,
      entry ∈ (dstep send (dstep send st (.removeProto s))
                  (.publish name data)).trace →
      entry ∉ (dstep send st (.removeProto s)).trace → entry.1 ≠ s) ∧
    (∀ (name : String) (data : E),
      (dstep send (dstep send st (.removeProto s)) (.publish name data)).trace
        = (dstep send st (.removeProto s)).trace ++
            (deliver send name data (st.protos.filter (fun p => p ≠ s))).1) := by
  refine ⟨?_, rfl, ?_, ?_, ?_, ?_, fun name data => rfl⟩
  · simp [dstep, List.mem_filter]
  · intro n hn
    simp only [dstep, List.mem_filter] at hn
    simp at hn
  · cases st with
    | mk protos listeners trace => simp [dstep, filter_idem]
  · intro hs
    apply List.filter_eq_self.mpr
    intro p hp
    simp only [ne_eq, decide_eq_true_eq]
    intro rfl_eq
    exact hs (rfl_eq ▸ hp)
  · intro name data entry hmem hold
    simp only [dstep, List.mem_append] at hmem
    rcases hmem with h | h
    · exact absurd h hold
    · have := deliver_mem send name data _ entry h
      simp only [dstep, List.mem_filter, ne_eq, decide_eq_true_eq] at this
      exact this.2

theorem flagOf_mem_keys (l : List (String × Bool)) (a : String)
    (h : flagOf l a = true) : a ∈ l.map Prod.fst := by
  induction l with
  | nil => simp [flagOf, List.lookup] at h
  | cons e rest ih =>
    simp only [flagOf, List.lookup] at h
    by_cases hk : a = e.1
    · simp [hk]
    · rw [beq_false_of_ne hk] at h
      simp [ih h]

theorem flagOf_all_true (l : List (String × Bool))
    (hall : ∀ e ∈ l, e.2 = true) (a : String) (ha : a ∈ l.map Prod.fst) :
    flagOf l a = true := by
  induction l with
  | nil => simp at ha
  | cons e rest ih =>
    by_cases hk : a = e.1
    · cases e with
      | mk k v =>
        have hv : v = true := hall (k, v) (by simp)
        simp [flagOf, List.lookup, hk, hv]
    · have hb : (a == e.1) = false := beq_false_of_ne hk
      have ha' : a ∈ rest.map Prod.fst := by
        simp only [List.map_cons, List.mem_cons] at ha
        exact ha.resolve_left hk
      have := ih (fun x hx => hall x (by simp [hx])) ha'
      cases e; simpa [flagOf, List.lookup, hb] using this

theorem activeIds_of_wf (info : RoomInfo) (hwf : RoomWF info) :
    activeIds info = info.sockets.map Prod.fst := by
  apply List.filter_eq_self.mpr
  intro a ha
  exact flagOf_all_true info.sockets hwf.2.1 a ha

theorem eq_of_mem_nodup_keys {β : Type} :
    ∀ (l : List (String × β)), (l.map Prod.fst).Nodup →
      ∀ {a : String} {b c : β}, (a, b) ∈ l → (a, c) ∈ l → b = c := by
  intro l
  induction l with
  | nil => intro _ a b c hb; simp at hb
  | cons e rest ih =>
    intro hnd a b c hb hc
    simp only [List.map_cons, List.nodup_cons] at hnd
    rcases List.mem_cons.mp hb with rfl | hb' <;>
      rcases List.mem_cons.mp hc with hc' | hc'
    · exact (congrArg Prod.snd hc'.symm)
    · exact absurd (List.mem_map_of_mem Prod.fst hc') hnd.1
    · rw [← hc'] at hnd
      exact absurd (List.mem_map_of_mem Prod.fst hb') hnd.1
    · exact ih hnd.2 hb' hc'

theorem stateRooms_aux_mem :
    ∀ (adapter : Adapter) (acc : List (String × List String))
      (x : String × List String),
      x ∈ adapter.foldl roomStep acc ↔
        x ∈ acc ∨ ∃ i : RoomInfo, (x.1, i) ∈ adapter ∧
          ¬(i.length = 1 ∧ flagOf i.sockets x.1 = true) ∧ x.2 = activeIds i := by
  intro adapter
  induction adapter with
  | nil => intro acc x; simp
  | cons e rest ih =>
    intro acc x
    rw [List.foldl_cons, ih]
    constructor
    · rintro (hx | ⟨i, hi, hcond, hval⟩)
      · by_cases hc : e.2.length = 1 ∧ flagOf e.2.sockets e.1 = true
        · rw [roomStep, if_pos hc] at hx
          exact Or.inl hx
        · rw [roomStep, if_neg hc] at hx
          rcases List.mem_append.mp hx with h | h
          · exact Or.inl h
          · simp only [List.mem_singleton] at h
            subst h
            exact Or.inr ⟨e.2, List.mem_cons_self _ _, hc, rfl⟩
      · exact Or.inr ⟨i, List.mem_cons_of_mem e hi, hcond, hval⟩
    · rintro (hx | ⟨i, hi, hcond, hval⟩)
      · left
        rw [roomStep]
        split
        · exact hx
        · exact List.mem_append_left _ hx
      · rcases List.mem_cons.mp hi with heq | hrest
        · left
          rw [roomStep, if_neg (by rw [← heq]; exact hcond)]
          refine List.mem_append_right _ ?_
          rw [List.mem_singleton, ← heq]
          exact Prod.ext rfl hval
        · exact Or.inr ⟨i, hrest, hcond, hval⟩

theorem stateRooms_mem (adapter : Adapter) (x : String × List String) :
    x ∈ stateRooms adapter ↔
      ∃ i : RoomInfo, (x.1, i) ∈ adapter ∧
        ¬(i.length = 1 ∧ flagOf i.sockets x.1 = true) ∧ x.2 = activeIds i := by
  rw [stateRooms, stateRooms_aux_mem]
  simp

theorem cond_iff_personal (name : String) (info : RoomInfo) (hwf : RoomWF info) :
    (info.length = 1 ∧ flagOf info.sockets name = true) ↔
      activeIds info = [name] := by
  rw [activeIds_of_wf info hwf]
  constructor
  · rintro ⟨hlen, hflag⟩
    have hkl : (info.sockets.map Prod.fst).length = 1 := by
      rw [List.length_map, ← hwf.1, hlen]
    obtain ⟨k, hk⟩ := List.length_eq_one.mp hkl
    have hnm : name ∈ info.sockets.map Prod.fst := flagOf_mem_keys _ _ hflag
    rw [hk] at hnm ⊢
    simp only [List.mem_singleton] at hnm
    rw [hnm]
  · intro hkeys
    refine ⟨?_, ?_⟩
    · rw [hwf.1, ← List.length_map info.sockets Prod.fst, hkeys]
      rfl
    · exact flagOf_all_true _ hwf.2.1 name (by rw [hkeys]; simp)

/-- C5: under the adapter's own invariant (`RoomWF` per room, room names
unique), the snapshot's `rooms` list excludes exactly the rooms whose
membership is a single active identity equal to the room's own name, and
includes every other room under its name with its list of active member
identities; everything in the list is a real room with its correct active
member set. -/
theorem stateRooms_personal_exclusion (adapter : Adapter)
    (hwf : ∀ e ∈ adapter, RoomWF e.2)
    (hnd : (adapter.map Prod.fst).Nodup)
    (name : String) (info : RoomInfo) (hmem : (name, info) ∈ adapter) :
    (activeIds info = [name] → ∀ l, (name, l) ∉ stateRooms adapter) ∧
    (activeIds info ≠ [name] → (name, activeIds info) ∈ stateRooms adapter) ∧
    (∀ nm l, (nm, l) ∈ stateRooms adapter →
      ∃ i : RoomInfo, (nm, i) ∈ adapter ∧ l = activeIds i) := by
  have hwfInfo : RoomWF info := hwf (name, info) hmem
  refine ⟨?_, ?_, ?_⟩
  · intro hpers l hl
    rw [stateRooms_mem] at hl
    obtain ⟨i, hi, hcond, -⟩ := hl
    have : i = info := eq_of_mem_nodup_keys adapter hnd hi hmem
    subst this
    exact hcond ((cond_iff_personal name i hwfInfo).mpr hpers)
  · intro hpers
    have hnc : ¬(info.length = 1 ∧ flagOf info.sockets name = true) :=
      fun hc => hpers ((cond_iff_personal name info hwfInfo).mp hc)
    exact (stateRooms_mem adapter (name, activeIds info)).mpr ⟨info, hmem, hnc, rfl⟩
  · intro nm l hl
    obtain ⟨i, hi, -, hval⟩ := (stateRooms_mem adapter (nm, l)).mp hl
    exact ⟨i, hi, hval⟩

/-- C5 witness: the exclusion theorem at the concrete adapter, applied to
`room1`. -/
theorem stateRooms_personal_exclusion_wit :
    (activeIds ⟨2, [("alice", true), ("bob", true)]⟩ = ["room1"] →
      ∀ l, ("room1", l) ∉ stateRooms wfAdapter) ∧
    (activeIds ⟨2, [("alice", true), ("bob", true)]⟩ ≠ ["room1"] →
      ("room1", activeIds ⟨2, [("alice", true), ("bob", true)]⟩) ∈
        stateRooms wfAdapter) ∧
    (∀ nm l, (nm, l) ∈ stateRooms wfAdapter →
      ∃ i : RoomInfo, (nm, i) ∈ wfAdapter ∧ l = activeIds i) :=
  stateRooms_personal_exclusion wfAdapter (by decide) (by decide)
    "room1" ⟨2, [("alice", true), ("bob", true)]⟩ (by decide)

theorem mem_pushNew (d : List String) (id a : String) :
    a ∈ pushNew d id ↔ a ∈ d ∨ a = id := by
  by_cases h : id ∈ d
  · rw [pushNew, if_pos h]
    constructor
    · exact fun ha => Or.inl ha
    · rintro (ha | rfl)
      · exact ha
      · exact h
  · rw [pushNew, if_neg h]
    simp

theorem nodup_pushNew (d : List String) (id : String) (hd : d.Nodup) :
    (pushNew d id).Nodup := by
  by_cases h : id ∈ d
  · rw [pushNew, if_pos h]; exact hd
  · rw [pushNew, if_neg h]
    refine hd.append (List.nodup_singleton id) ?_
    intro a ha hmem
    rw [List.mem_singleton] at hmem
    exact h (hmem ▸ ha)

theorem fold_ins_mem (sockets : List (String × Bool)) (ks : List String) :
    ∀ (dict : List String) (a : String),
      a ∈ ks.foldl (fun d id => if flagOf sockets id then pushNew d id else d)
            dict
        ↔ a ∈ dict ∨ (a ∈ ks ∧ flagOf sockets a = true) := by
  induction ks with
  | nil => intro dict a; simp
  | cons k ks ih =>
    intro dict a
    rw [List.foldl_cons, ih]
    by_cases hk : flagOf sockets k = true
    · rw [if_pos hk, mem_pushNew]
      constructor
      · rintro ((ha | rfl) | ⟨haks, hfa⟩)
        · exact Or.inl ha
        · exact Or.inr ⟨List.mem_cons_self _ _, hk⟩
        · exact Or.inr ⟨List.mem_cons_of_mem k haks, hfa⟩
      · rintro (ha | ⟨haks, hfa⟩)
        · exact Or.inl (Or.inl ha)
        · rcases List.mem_cons.mp haks with rfl | hmem
          · exact Or.inl (Or.inr rfl)
          · exact Or.inr ⟨hmem, hfa⟩
    · rw [if_neg hk]
      constructor
      · rintro (ha | ⟨haks, hfa⟩)
        · exact Or.inl ha
        · exact Or.inr ⟨List.mem_cons_of_mem k haks, hfa⟩
      · rintro (ha | ⟨haks, hfa⟩)
        · exact Or.inl ha
        · rcases List.mem_cons.mp haks with rfl | hmem
          · exact absurd hfa hk
          · exact Or.inr ⟨hmem, hfa⟩

theorem fold_ins_nodup (sockets : List (String × Bool)) (ks : List String) :
    ∀ dict : List String, dict.Nodup →
      (ks.foldl (fun d id => if flagOf sockets id then pushNew d id else d)
          dict).Nodup := by
  induction ks with
  | nil => intro dict h; simpa
  | cons k ks ih =>
    intro dict h
    rw [List.foldl_cons]
    apply ih
    by_cases hk : flagOf sockets k = true
    · rw [if_pos hk]; exact nodup_pushNew dict k h
    · rw [if_neg hk]; exact h

theorem addRoomIds_mem (info : RoomInfo) (dict : List String) (a : String) :
    a ∈ addRoomIds dict info ↔ a ∈ dict ∨ flagOf info.sockets a = true := by
  rw [addRoomIds, fold_ins_mem]
  constructor
  · rintro (h | ⟨-, hf⟩)
    exacts [Or.inl h, Or.inr hf]
  · rintro (h | hf)
    · exact Or.inl h
    · exact Or.inr ⟨flagOf_mem_keys _ _ hf, hf⟩

theorem stateSockets_aux_mem :
    ∀ (adapter : Adapter) (dict : List String) (a : String),
      a ∈ adapter.foldl (fun dict e => addRoomIds dict e.2) dict
        ↔ a ∈ dict ∨ ∃ e ∈ adapter, flagOf e.2.sockets a = true := by
  intro adapter
  induction adapter with
  | nil => intro dict a; simp
  | cons e rest ih =>
    intro dict a
    rw [List.foldl_cons, ih, addRoomIds_mem]
    constructor
    · rintro ((h | hf) | ⟨r, hr, hfr⟩)
      · exact Or.inl h
      · exact Or.inr ⟨e, List.mem_cons_self _ _, hf⟩
      · exact Or.inr ⟨r, List.mem_cons_of_mem e hr, hfr⟩
    · rintro (h | ⟨r, hr, hfr⟩)
      · exact Or.inl (Or.inl h)
      · rcases List.mem_cons.mp hr with rfl | hmem
        · exact Or.inl (Or.inr hfr)
        · exact Or.inr ⟨r, hmem, hfr⟩

theorem stateSockets_aux_nodup :
    ∀ (adapter : Adapter) (dict : List String), dict.Nodup →
      (adapter.foldl (fun dict e => addRoomIds dict e.2) dict).Nodup := by
  intro adapter
  induction adapter with
  | nil => intro dict h; simpa
  | cons e rest ih =>
    intro dict h
    rw [List.foldl_cons]
    exact ih _ (fold_ins_nodup e.2.sockets _ dict h)

/-- C8: the snapshot's flat `sockets` list has no duplicates and holds
exactly the identities that are an active member of at least one room of
the adapter — personal/implicit rooms included. -/
theorem stateSockets_union (adapter : Adapter) :
    (stateSockets adapter).Nodup ∧
    ∀ id, id ∈ stateSockets adapter ↔
      ∃ e ∈ adapter, flagOf e.2.sockets id = true := by
  constructor
  · exact stateSockets_aux_nodup adapter [] List.nodup_nil
  · intro id
    rw [stateSockets, stateSockets_aux_mem]
    simp

end SIOMonitor
